import Mathlib

/-!
Verification of the StarGazer background synchronization engine.

Shallow embedding of the core algorithms of the backend:
* `_diff_and_prepare_operations` (backend/app/core/sync_service.py)
* `run_full_sync` statistics construction (sync_service.py) and their
  consumption by the scheduler (backend/app/core/scheduler.py)
* `_is_in_dnd_hours` and the quiet-hours sleep computation (scheduler.py)
* `summarize_single_repo` outcome persistence (backend/app/core/summary_service.py)
* `AIService.handle_rate_limit_with_retry` (backend/app/core/ai_service.py)
* the notification channels' `send` config checks (backend/app/core/notifiers/*.py)

Python dictionaries keyed by repo id are embedded as association lists with
insert-or-replace semantics; datetimes are embedded as seconds/minutes since
midnight; exceptions are embedded as explicit error values.
-/

namespace StarGazer

/-- The six fields of `substantive_fields` in `_diff_and_prepare_operations`. -/
inductive SubstField where
  | name
  | full_name
  | description
  | language
  | html_url
  | pushed_at
deriving DecidableEq, Repr

/-- A normalized remote record, as produced by the GitHub fetcher and consumed
by `_diff_and_prepare_operations` (one element of `github_repos_data`). -/
structure RepoData where
  id : Int
  name : String
  full_name : String
  owner_login : String
  owner_avatar_url : String
  html_url : String
  description : Option String
  language : Option String
  stargazers_count : Int
  pushed_at : String
  starred_at : String
deriving DecidableEq, Repr

/-- The local database model `Repo` (backend/app/models.py). -/
structure Repo where
  id : Int
  name : String
  full_name : String
  owner_login : String
  owner_avatar_url : String
  html_url : String
  description : Option String
  language : Option String
  stargazers_count : Int
  pushed_at : String
  starred_at : String
  «alias» : Option String
  notes : Option String
  tags : List String
deriving DecidableEq, Repr

/-- Embeds `github_repo.get(field)` for the six substantive fields. -/
def RepoData.getS (d : RepoData) : SubstField → Option String
  | .name => some d.name
  | .full_name => some d.full_name
  | .description => d.description
  | .language => d.language
  | .html_url => some d.html_url
  | .pushed_at => some d.pushed_at

/-- Embeds `getattr(db_repo, field)` for the six substantive fields. -/
def Repo.getS (r : Repo) : SubstField → Option String
  | .name => some r.name
  | .full_name => some r.full_name
  | .description => r.description
  | .language => r.language
  | .html_url => some r.html_url
  | .pushed_at => some r.pushed_at

/-- Embeds `setattr(db_repo, field, github_repo.get(field))` for one substantive field. -/
def Repo.syncField (r : Repo) (d : RepoData) : SubstField → Repo
  | .name => { r with name := d.name }
  | .full_name => { r with full_name := d.full_name }
  | .description => { r with description := d.description }
  | .language => { r with language := d.language }
  | .html_url => { r with html_url := d.html_url }
  | .pushed_at => { r with pushed_at := d.pushed_at }

/-- Embeds `Repo.model_validate(repo_data)`: a new `Repo` row built from a remote
record; the user-editable fields take their model defaults. -/
def Repo.model_validate (d : RepoData) : Repo where
  id := d.id
  name := d.name
  full_name := d.full_name
  owner_login := d.owner_login
  owner_avatar_url := d.owner_avatar_url
  html_url := d.html_url
  description := d.description
  language := d.language
  stargazers_count := d.stargazers_count
  pushed_at := d.pushed_at
  starred_at := d.starred_at
  «alias» := none
  notes := none
  tags := []

/-- The `substantive_fields` list of `_diff_and_prepare_operations`. -/
def substantive_fields : List SubstField :=
  [.name, .full_name, .description, .language, .html_url, .pushed_at]

/-! ### Python dict embedding (insertion-ordered, insert-or-replace) -/

/-- Python dict assignment `m[k] = v`: replace in place if the key exists,
otherwise append at the end. -/
def dictInsert {α : Type} (m : List (Int × α)) (k : Int) (v : α) : List (Int × α) :=
  if m.any (fun p => p.1 == k) then
    m.map (fun p => if p.1 == k then (k, v) else p)
  else
    m ++ [(k, v)]

/-- Python dict comprehension over `xs` keyed by `key`: build a dict from a list, later entries winning. -/
def dictOf {α : Type} (xs : List α) (key : α → Int) : List (Int × α) :=
  xs.foldl (fun m x => dictInsert m (key x) x) []

/-- Dict lookup. -/
def dictFind? {α : Type} (m : List (Int × α)) (k : Int) : Option α :=
  (m.find? (fun p => p.1 == k)).map (·.2)

/-- The key list of a dict. -/
def dictKeys {α : Type} (m : List (Int × α)) : List Int :=
  m.map (·.1)

/-! ### The diff algorithm -/

/-- One iteration of the `for field in substantive_fields` loop, threading the
partially updated repo and the `has_substantive_update` flag. -/
def substStep (d : RepoData) (acc : Repo × Bool) (f : SubstField) : Repo × Bool :=
  if acc.1.getS f ≠ d.getS f then (acc.1.syncField d f, true) else acc

/-- The whole `for field in substantive_fields` loop. -/
def applySubst (d : RepoData) (fs : List SubstField) (acc : Repo × Bool) : Repo × Bool :=
  fs.foldl (substStep d) acc

/-- The two compare-and-set statements after the substantive loop:
`stargazers_count` and `starred_at` are synced but never flagged. -/
def updateCounts (d : RepoData) (r : Repo) : Repo :=
  let r2 := if r.stargazers_count ≠ d.stargazers_count then
      { r with stargazers_count := d.stargazers_count } else r
  if r2.starred_at ≠ d.starred_at then
    { r2 with starred_at := d.starred_at } else r2

/-- The per-common-repo body of the diff loop: sync the substantive fields,
then `stargazers_count` and `starred_at`; return the updated repo and the
`has_substantive_update` flag. -/
def updateRepo (d : RepoData) (r : Repo) : Repo × Bool :=
  let su := applySubst d substantive_fields (r, false)
  (updateCounts d su.1, su.2)

/-- The `for repo_id in common_ids` loop, accumulating `to_update` and
`substantive_updated_repos` in iteration order. -/
def processCommon (gm : List (Int × RepoData)) (dm : List (Int × Repo)) :
    List Int → List Repo × List Repo
  | [] => ([], [])
  | i :: rest =>
    let tail := processCommon gm dm rest
    match dictFind? gm i, dictFind? dm i with
    | some g, some r =>
      let u := updateRepo g r
      (u.1 :: tail.1, if u.2 then u.1 :: tail.2 else tail.2)
    | _, _ => tail

/-- The result tuple of `_diff_and_prepare_operations`. -/
structure DiffResult where
  to_add : List RepoData
  to_update : List Repo
  to_remove_ids : List Int
  substantive_updated_repos : List Repo
deriving Repr

/-- Embeds `_diff_and_prepare_operations(github_repos_data, db_repos)`
(backend/app/core/sync_service.py, lines 21-94). Set differences are computed
on the dict key lists; the iteration order of the Python sets is immaterial to
the claims and is fixed here as key order. -/
def _diff_and_prepare_operations (github_repos_data : List RepoData)
    (db_repos : List Repo) : DiffResult :=
  let github_repos_map := dictOf github_repos_data (·.id)
  let db_repos_map := dictOf db_repos (·.id)
  let github_ids := dictKeys github_repos_map
  let db_ids := dictKeys db_repos_map
  let add_ids := github_ids.filter (fun i => ¬ i ∈ db_ids)
  let remove_ids := db_ids.filter (fun i => ¬ i ∈ github_ids)
  let common_ids := github_ids.filter (fun i => i ∈ db_ids)
  let to_add := add_ids.filterMap (dictFind? github_repos_map)
  let cu := processCommon github_repos_map db_repos_map common_ids
  { to_add := to_add
    to_update := cu.1
    to_remove_ids := remove_ids
    substantive_updated_repos := cu.2 }

/-- The local item set after one reconciliation pass is applied to the
database: common items carry the in-place field updates, removed ids are gone,
and `to_add` records are inserted via `Repo.model_validate`. -/
def applyDiff (github_repos_data : List RepoData) (db_repos : List Repo) : List Repo :=
  let res := _diff_and_prepare_operations github_repos_data db_repos
  res.to_update ++ res.to_add.map Repo.model_validate

/-- At least one of the six substantive fields differs between a remote record
and a local repo. -/
def substDiffers (d : RepoData) (r : Repo) : Prop :=
  ∃ f ∈ substantive_fields, r.getS f ≠ d.getS f

instance (d : RepoData) (r : Repo) : Decidable (substDiffers d r) := by
  unfold substDiffers; infer_instance

/-! ### Scheduler: quiet hours and sleep computation
(backend/app/core/scheduler.py) -/

/-- Embeds `_is_in_dnd_hours(dnd_enabled, start_hour, end_hour)` (scheduler.py lines
22-39). The current time of day `datetime.now().time()` is embedded as
`now_s`, seconds since midnight; `time(h, 0)` becomes `h * 3600`, and the
Python `time` comparisons become comparisons of these second counts. -/
def _is_in_dnd_hours (dnd_enabled : Bool) (start_hour end_hour : Nat)
    (now_s : Nat) : Bool :=
  if ¬ dnd_enabled ∨ start_hour = end_hour then false
  else
    let start_time := start_hour * 3600
    let end_time := end_hour * 3600
    if start_time < end_time then
      decide (start_time ≤ now_s ∧ now_s < end_time)
    else
      decide (now_s ≥ start_time) || decide (now_s < end_time)

/-- The settings fields the scheduler's sleep computation reads. -/
structure SchedulerSettings where
  is_background_sync_enabled : Bool
  is_dnd_enabled : Bool
  dnd_start_hour : Nat
  dnd_end_hour : Nat
  sync_interval_hours : Nat
deriving DecidableEq, Repr

/-- The sleep computation of the scheduler's `finally` block when
`app_settings` was obtained (scheduler.py lines 174-196): `now.replace(hour=
dnd_end, ...)` is today's `dnd_end:00:00` (`dnd_end * 3600` seconds since
midnight), one day is added when `now.time() >= time(dnd_start, 0)`, and the
result is `max(0, end_of_dnd - now) + jitter` seconds, with
`jitter = random.randint(1, 10)` passed in explicitly. -/
def computeSleepSeconds (s : SchedulerSettings) (now_s : Nat) (jitter : Nat) : Int :=
  if s.is_background_sync_enabled = true ∧
      _is_in_dnd_hours s.is_dnd_enabled s.dnd_start_hour s.dnd_end_hour now_s = true then
    let end_of_dnd : Int := s.dnd_end_hour * 3600
    let end_of_dnd : Int :=
      if now_s ≥ s.dnd_start_hour * 3600 then end_of_dnd + 86400 else end_of_dnd
    max 0 (end_of_dnd - now_s) + jitter
  else
    s.sync_interval_hours * 3600

/-- The earliest moment at or after `now_s` (seconds since midnight, next day
represented as `h * 3600 + 86400`) at which the hour equals `dnd_end`: the
quiet-hours window's end boundary that the specification says the sleep
should target. -/
def nextDndEnd (dnd_end : Nat) (now_s : Nat) : Int :=
  if now_s ≤ dnd_end * 3600 then dnd_end * 3600 else dnd_end * 3600 + 86400

/-! ### `run_full_sync` statistics and their consumption by the scheduler
(sync_service.py lines 136-142, scheduler.py lines 89 and 118) -/

/-- A value stored in the `stats` dict. -/
inductive StatVal where
  | num (n : Nat)
  | idMap (m : List (Int × String))
  | idList (l : List Int)
deriving DecidableEq, Repr

/-- The `stats` dict built by `run_full_sync` (sync_service.py lines 137-142). -/
def run_full_sync_stats (github_repos_data : List RepoData)
    (db_repos : List Repo) : List (String × StatVal) :=
  let res := _diff_and_prepare_operations github_repos_data db_repos
  [("added", .num res.to_add.length),
   ("updated", .num res.substantive_updated_repos.length),
   ("removed", .num res.to_remove_ids.length),
   ("total_from_github", .num github_repos_data.length)]

/-- Dict read `stats.get(k)` without a default. -/
def statsGet (stats : List (String × StatVal)) (k : String) : Option StatVal :=
  (stats.find? (fun p => p.1 == k)).map (·.2)

/-- Scheduler line 89: `old_pushed_at_map = stats.get("old_pushed_at_map", {})`. -/
def scheduler_old_pushed_at_map (stats : List (String × StatVal)) : StatVal :=
  (statsGet stats "old_pushed_at_map").getD (.idMap [])

/-- Scheduler line 118: `updated_repo_ids = stats.get("updated_repo_ids", [])`. -/
def scheduler_updated_repo_ids (stats : List (String × StatVal)) : StatVal :=
  (statsGet stats "updated_repo_ids").getD (.idList [])

/-! ### AI pipeline error taxonomy
(backend/app/exceptions.py, ai_service.py, summary_service.py) -/

/-- The exception classes that can cross `summarize_single_repo`'s try block. -/
inductive SummarizeError where
  | invalidApiKey
  | rateLimit
  | apiEndpoint
  | networkTimeout
  | emptyContent
  | invalidGitHubToken
  | gitHubApi
  | unknown
deriving DecidableEq, Repr

/-- The list `retry_delays = [30, 60, 120]` in `handle_rate_limit_with_retry`. -/
def retry_delays : List Nat := [30, 60, 120]

/-- The `for attempt, delay in enumerate(retry_delays, start=1)` loop of
`AIService.handle_rate_limit_with_retry` (ai_service.py lines 219-235).
`call k` is the outcome of the `k`-th `summarize_repository` call. The result
records the Python outcome (`.ok (some s)` = returned a summary, `.ok none` =
`return None`, `.error e` = the exception `e` escaped), the number of calls
made, and the sleeps performed in order. -/
def retryFrom (call : Nat → Except SummarizeError String) :
    List (Nat × Nat) → Except SummarizeError (Option String) × Nat × List Nat
  | [] => (.ok none, 0, [])
  | (attempt, delay) :: rest =>
    match call attempt with
    | .ok s => (.ok (some s), 1, [])
    | .error .rateLimit =>
      if attempt < retry_delays.length then
        let t := retryFrom call rest
        (t.1, t.2.1 + 1, delay :: t.2.2)
      else
        (.ok none, 1, [])
    | .error e => (.error e, 1, [])

/-- Embeds `AIService.handle_rate_limit_with_retry` (ai_service.py lines 204-235). -/
def handle_rate_limit_with_retry (call : Nat → Except SummarizeError String) :
    Except SummarizeError (Option String) × Nat × List Nat :=
  retryFrom call (retry_delays.enumFrom 1)

/-- The analysis fields of one repo row, as written by `summarize_single_repo`
(summary_service.py; the timestamps `datetime.now()` are embedded as `Nat`). -/
structure RepoAnalysis where
  ai_summary : Option String
  analyzed_at : Option Nat
  analysis_failed : Bool
  readme_sha : Option String
deriving DecidableEq, Repr

/-- What `summarize_single_repo` does from its caller's point of view:
either return a boolean or raise an exception. -/
inductive SummarizeOutcome where
  | ret (b : Bool)
  | raised (e : SummarizeError)
deriving DecidableEq, Repr

/-- Embeds `summarize_single_repo` (summary_service.py lines 216-362): the try block
threaded over explicit effect outcomes, then the except clauses. `readme` is
the outcome of the README retrieval (`.ok (none, sha)` = no README), `aiCall`
is the outcome of `handle_rate_limit_with_retry` on the truncated content
(`.ok none` = rate-limit retries exhausted), `nowT` is `datetime.now()`.
Returns the outcome seen by the caller and the persisted analysis fields. -/
def summarize_single_repo (repo : RepoAnalysis) (nowT : Nat)
    (readme : Except SummarizeError (Option String × Option String))
    (aiCall : String → Except SummarizeError (Option String)) :
    SummarizeOutcome × RepoAnalysis :=
  let body : Except SummarizeError (Bool × RepoAnalysis) := do
    let rc ← readme
    match rc with
    | (none, _) =>
      pure (true, { repo with ai_summary := none, analyzed_at := some nowT,
                              analysis_failed := false, readme_sha := none })
    | (some content, sha) =>
      let content := content.take 2000
      let s? ← aiCall content
      match s? with
      | none => pure (false, { repo with analysis_failed := true, analyzed_at := none })
      | some s =>
        pure (true, { repo with ai_summary := some s, analyzed_at := some nowT,
                                analysis_failed := false, readme_sha := sha })
  match body with
  | .ok (b, r) => (.ret b, r)
  | .error .invalidApiKey => (.raised .invalidApiKey, repo)
  | .error .apiEndpoint =>
    (.ret false, { repo with analysis_failed := true, analyzed_at := none })
  | .error .networkTimeout =>
    (.ret false, { repo with analysis_failed := true, analyzed_at := none })
  | .error .emptyContent =>
    (.ret false, { repo with analysis_failed := true, analyzed_at := some nowT })
  | .error .invalidGitHubToken => (.raised .invalidGitHubToken, repo)
  | .error .gitHubApi =>
    (.ret false, { repo with analysis_failed := true, analyzed_at := none })
  | .error _ =>
    (.ret false, { repo with analysis_failed := true, analyzed_at := none })

/-! ### Notification channels (backend/app/core/notifiers) -/

/-- Dict read `config.get(k)` on a channel config dict. -/
def configGet (cfg : List (String × String)) (k : String) : Option String :=
  (cfg.find? (fun p => p.1 == k)).map (·.2)

/-- Python truthiness of an optional string: `None` and `""` are falsy. -/
def truthyS : Option String → Bool
  | none => false
  | some s => !(s == "")

/-- Python `s.rstrip('/')`. -/
def rstripSlash (s : String) : String :=
  String.mk (s.toList.reverse.dropWhile (fun c => c == '/')).reverse

/-- Embeds `WebhookNotifier.send` (webhook.py lines 32-101): the missing-`url` early
return, then the try block (template parsing, substitution and the HTTP
exchange) abstracted as `attempt`, whose raised exceptions the
`except Exception` clause turns into `False`. -/
def webhook_send (cfg : List (String × String)) (title content : String)
    (attempt : Except Unit Bool) : Bool :=
  let url := configGet cfg "url"
  if ¬ truthyS url then false
  else
    match attempt with
    | .ok b => b
    | .error _ => false

/-- Embeds `GotifyNotifier.send` (gotify.py lines 26-62): the missing-`url`/`token`
early return, the HTTP exchange abstracted as `attempt`. -/
def gotify_send (cfg : List (String × String)) (title content : String)
    (attempt : Except Unit Bool) : Bool :=
  let base_url := rstripSlash ((configGet cfg "url").getD "")
  let token := configGet cfg "token"
  if base_url == "" ∨ ¬ truthyS token then false
  else
    match attempt with
    | .ok b => b
    | .error _ => false

/-- Embeds `BarkNotifier.send` (bark.py lines 26-87): the missing-`key` early return,
the jump-URL extraction and HTTP exchange abstracted as `attempt`. -/
def bark_send (cfg : List (String × String)) (title content : String)
    (attempt : Except Unit Bool) : Bool :=
  let key := configGet cfg "key"
  if ¬ truthyS key then false
  else
    match attempt with
    | .ok b => b
    | .error _ => false

/-- Embeds `ServerChanNotifier.send` (serverchan.py lines 23-66): the missing-
`sendkey` early return, the HTTP exchange abstracted as `attempt`. -/
def serverchan_send (cfg : List (String × String)) (title content : String)
    (attempt : Except Unit Bool) : Bool :=
  let sendkey := configGet cfg "sendkey"
  if ¬ truthyS sendkey then false
  else
    match attempt with
    | .ok b => b
    | .error _ => false

/-! ### Concrete example inputs -/

/-- A remote record with id 1. -/
def remoteUnchanged : RepoData :=
  ⟨1, "n1", "o/n1", "o", "av", "u1", none, some "Py", 5, "P1", "S1"⟩

/-- A local repo with id 1 agreeing with `remoteUnchanged` on every field the
diff compares. -/
def localUnchanged : Repo :=
  ⟨1, "n1", "o/n1", "o", "av", "u1", none, some "Py", 5, "P1", "S1",
   some "al", some "nt", ["_favorite"]⟩

/-- The remote side of the specification's worked scenario: ids 2, 3, 4;
id 2 has a fresh `pushed_at`, id 3 differs only in `stargazers_count`. -/
def remoteScenario : List RepoData :=
  [⟨2, "n2", "o/n2", "o", "av", "u2", none, some "Py", 5, "P2new", "S2"⟩,
   ⟨3, "n3", "o/n3", "o", "av", "u3", none, some "Py", 99, "P3", "S3"⟩,
   ⟨4, "n4", "o/n4", "o", "av", "u4", none, some "Py", 1, "P4", "S4"⟩]

/-- The local side of the specification's worked scenario: ids 1, 2, 3. -/
def localScenario : List Repo :=
  [⟨1, "n1", "o/n1", "o", "av", "u1", none, some "Py", 0, "P1", "S1", none, none, []⟩,
   ⟨2, "n2", "o/n2", "o", "av", "u2", none, some "Py", 5, "P2", "S2", none, none, []⟩,
   ⟨3, "n3", "o/n3", "o", "av", "u3", none, some "Py", 7, "P3", "S3", none, none, []⟩]

end StarGazer

namespace StarGazer

/-! ## Theorems -/

/-! ### Association-list dict lemmas -/

theorem dictKeys_dictInsert {α : Type} (m : List (Int × α)) (k : Int) (v : α) :
    dictKeys (dictInsert m k v) =
      if k ∈ dictKeys m then dictKeys m else dictKeys m ++ [k] := by
  unfold dictInsert dictKeys
  by_cases h : m.any (fun p => p.1 == k)
  · have hmem : k ∈ m.map (·.1) := by
      rw [List.any_eq_true] at h
      obtain ⟨p, hp, he⟩ := h
      rw [beq_iff_eq] at he
      exact List.mem_map.mpr ⟨p, hp, he⟩
    rw [if_pos h, if_pos hmem, List.map_map]
    apply List.map_congr_left
    intro p _
    by_cases hp : p.1 == k
    · simp only [Function.comp_apply, hp, if_pos]
      exact (beq_iff_eq.mp hp).symm
    · simp only [Function.comp_apply, hp]
      simp
  · have hmem : k ∉ m.map (·.1) := by
      intro hk
      obtain ⟨p, hp, he⟩ := List.mem_map.mp hk
      exact h (List.any_eq_true.mpr ⟨p, hp, beq_iff_eq.mpr he⟩)
    rw [if_neg h, if_neg hmem, List.map_append]
    rfl

theorem nodup_dictKeys_dictInsert {α : Type} (m : List (Int × α)) (k : Int)
    (v : α) (h : (dictKeys m).Nodup) : (dictKeys (dictInsert m k v)).Nodup := by
  rw [dictKeys_dictInsert]
  split_ifs with hk
  · exact h
  · rw [List.nodup_append]
    refine ⟨h, List.nodup_singleton k, ?_⟩
    intro a ha hc
    rw [List.mem_singleton] at hc
    exact hk (hc ▸ ha)

theorem mem_dictKeys_dictInsert {α : Type} (m : List (Int × α)) (k i : Int)
    (v : α) : i ∈ dictKeys (dictInsert m k v) ↔ i ∈ dictKeys m ∨ i = k := by
  rw [dictKeys_dictInsert]
  split_ifs with hk
  · constructor
    · exact Or.inl
    · rintro (h | h)
      · exact h
      · exact h ▸ hk
  · simp [List.mem_append]

theorem mem_dictInsert {α : Type} (m : List (Int × α)) (k : Int) (v : α)
    (p : Int × α) (h : p ∈ dictInsert m k v) : p ∈ m ∨ p = (k, v) := by
  unfold dictInsert at h
  split_ifs at h with hc
  · obtain ⟨q, hq, he⟩ := List.mem_map.mp h
    by_cases hqk : q.1 == k
    · right; rw [if_pos hqk] at he; exact he.symm
    · left; rw [if_neg (by simpa using hqk)] at he; exact he ▸ hq
  · rcases List.mem_append.mp h with h | h
    · exact Or.inl h
    · exact Or.inr (List.mem_singleton.mp h)

theorem mem_dictKeys_foldInsert {β : Type} (key : β → Int) (xs : List β) :
    ∀ (m : List (Int × β)) (i : Int),
      i ∈ dictKeys (xs.foldl (fun m x => dictInsert m (key x) x) m) ↔
        i ∈ dictKeys m ∨ ∃ x ∈ xs, key x = i := by
  induction xs with
  | nil => intro m i; simp
  | cons x xs ih =>
    intro m i
    rw [List.foldl_cons, ih, mem_dictKeys_dictInsert]
    constructor
    · rintro ((h | h) | ⟨y, hy, he⟩)
      · exact Or.inl h
      · exact Or.inr ⟨x, List.mem_cons_self x xs, h.symm⟩
      · exact Or.inr ⟨y, List.mem_cons_of_mem x hy, he⟩
    · rintro (h | ⟨y, hy, he⟩)
      · exact Or.inl (Or.inl h)
      · rcases List.mem_cons.mp hy with rfl | hy
        · exact Or.inl (Or.inr he.symm)
        · exact Or.inr ⟨y, hy, he⟩

theorem mem_dictKeys_dictOf {β : Type} (key : β → Int) (xs : List β) (i : Int) :
    i ∈ dictKeys (dictOf xs key) ↔ ∃ x ∈ xs, key x = i := by
  unfold dictOf
  rw [mem_dictKeys_foldInsert]
  simp [dictKeys]

theorem nodup_dictKeys_dictOf {β : Type} (key : β → Int) (xs : List β) :
    (dictKeys (dictOf xs key)).Nodup := by
  unfold dictOf
  have : ∀ (m : List (Int × β)), (dictKeys m).Nodup →
      (dictKeys (xs.foldl (fun m x => dictInsert m (key x) x) m)).Nodup := by
    induction xs with
    | nil => intro m h; simpa using h
    | cons x xs ih =>
      intro m h
      exact ih _ (nodup_dictKeys_dictInsert _ _ _ h)
  exact this [] (by simp [dictKeys])

theorem mem_dictOf {β : Type} (key : β → Int) (xs : List β) (p : Int × β)
    (h : p ∈ dictOf xs key) : p.2 ∈ xs ∧ key p.2 = p.1 := by
  unfold dictOf at h
  have main : ∀ (ys : List β) (m : List (Int × β)),
      p ∈ ys.foldl (fun m x => dictInsert m (key x) x) m →
      p ∈ m ∨ (p.2 ∈ ys ∧ key p.2 = p.1) := by
    intro ys
    induction ys with
    | nil => intro m h; exact Or.inl h
    | cons x ys ih =>
      intro m h
      rw [List.foldl_cons] at h
      rcases ih _ h with h | h
      · rcases mem_dictInsert _ _ _ _ h with h | h
        · exact Or.inl h
        · exact Or.inr ⟨by rw [h]; exact List.mem_cons_self _ _, by rw [h]⟩
      · exact Or.inr ⟨List.mem_cons_of_mem x h.1, h.2⟩
  rcases main xs [] h with h | h
  · exact absurd h (List.not_mem_nil p)
  · exact h

theorem dictFind?_mem {α : Type} (m : List (Int × α)) (k : Int) (v : α)
    (h : dictFind? m k = some v) : (k, v) ∈ m := by
  unfold dictFind? at h
  obtain ⟨p, hp, he⟩ := Option.map_eq_some'.mp h
  have hk := List.find?_some hp
  rw [beq_iff_eq] at hk
  have := List.mem_of_find?_eq_some hp
  rwa [← he, ← hk, Prod.mk.eta]

theorem dictFind?_isSome {α : Type} (m : List (Int × α)) (k : Int) :
    (dictFind? m k).isSome = true ↔ k ∈ dictKeys m := by
  unfold dictFind? dictKeys
  rw [Option.isSome_map', List.find?_isSome]
  constructor
  · rintro ⟨p, hp, he⟩
    rw [beq_iff_eq] at he
    exact List.mem_map.mpr ⟨p, hp, he⟩
  · intro h
    obtain ⟨p, hp, he⟩ := List.mem_map.mp h
    exact ⟨p, hp, beq_iff_eq.mpr he⟩

theorem dictOf_eq_map_of_nodup {β : Type} (key : β → Int) (xs : List β)
    (h : (xs.map key).Nodup) :
    dictOf xs key = xs.map (fun x => (key x, x)) := by
  unfold dictOf
  have main : ∀ (xs : List β) (m : List (Int × β)),
      (dictKeys m ++ xs.map key).Nodup →
      xs.foldl (fun m x => dictInsert m (key x) x) m =
        m ++ xs.map (fun x => (key x, x)) := by
    intro xs
    induction xs with
    | nil => intro m _; simp
    | cons x xs ih =>
      intro m hm
      have hx : key x ∉ dictKeys m := by
        rw [List.nodup_append] at hm
        intro hc
        exact hm.2.2 hc (List.mem_cons_self _ _)
      have hins : dictInsert m (key x) x = m ++ [(key x, x)] := by
        unfold dictInsert
        rw [if_neg]
        intro hc
        rw [List.any_eq_true] at hc
        obtain ⟨p, hp, he⟩ := hc
        rw [beq_iff_eq] at he
        exact hx (List.mem_map.mpr ⟨p, hp, he⟩)
      rw [List.foldl_cons, hins, ih (m ++ [(key x, x)])]
      · simp
      · have : dictKeys (m ++ [(key x, x)]) = dictKeys m ++ [key x] := by
          simp [dictKeys]
        rw [this, List.append_assoc]
        simpa using hm
  have := main xs []
  simp only [dictKeys, List.map_nil, List.nil_append] at this
  exact this h

theorem dictFind?_map_pair {β : Type} (key : β → Int) (k : Int) :
    ∀ (xs : List β),
      dictFind? (xs.map (fun x => (key x, x))) k =
        xs.find? (fun x => key x == k) := by
  intro xs
  induction xs with
  | nil => rfl
  | cons x xs ih =>
    by_cases h : key x == k
    · simp [dictFind?, List.find?_cons, h]
    · simp only [List.map_cons, dictFind?, List.find?_cons] at ih ⊢
      rw [show ((key x, x).1 == k) = (key x == k) from rfl]
      rw [Bool.not_eq_true] at h
      rw [h]
      exact ih

theorem find?_key_eq_some_iff {β : Type} (key : β → Int) (k : Int)
    (xs : List β) (h : (xs.map key).Nodup) (v : β) :
    xs.find? (fun x => key x == k) = some v ↔ v ∈ xs ∧ key v = k := by
  constructor
  · intro hf
    refine ⟨List.mem_of_find?_eq_some hf, ?_⟩
    have := List.find?_some hf
    rwa [beq_iff_eq] at this
  · rintro ⟨hv, hk⟩
    induction xs with
    | nil => exact absurd hv (List.not_mem_nil v)
    | cons x xs ih =>
      rw [List.map_cons, List.nodup_cons] at h
      by_cases hx : (key x == k) = true
      · simp only [List.find?, hx]
        rcases List.mem_cons.mp hv with rfl | hv
        · rfl
        · exfalso
          apply h.1
          rw [beq_iff_eq.mp hx, ← hk]
          exact List.mem_map_of_mem key hv
      · simp only [List.find?, Bool.not_eq_true _ |>.mp hx]
        rcases List.mem_cons.mp hv with rfl | hv
        · exact absurd (beq_iff_eq.mpr hk) (by simpa using hx)
        · exact ih h.2 hv

theorem dictFind?_dictOf_nodup {β : Type} (key : β → Int) (xs : List β)
    (h : (xs.map key).Nodup) (k : Int) (v : β) :
    dictFind? (dictOf xs key) k = some v ↔ v ∈ xs ∧ key v = k := by
  rw [dictOf_eq_map_of_nodup key xs h, dictFind?_map_pair,
    find?_key_eq_some_iff key k xs h]

/-! ### Per-repo update lemmas -/

theorem getS_syncField_self (r : Repo) (d : RepoData) (f : SubstField) :
    (r.syncField d f).getS f = d.getS f := by
  cases f <;> rfl

theorem getS_syncField_of_ne (r : Repo) (d : RepoData) (f f' : SubstField)
    (h : f ≠ f') : (r.syncField d f').getS f = r.getS f := by
  cases f <;> cases f' <;> first | rfl | exact absurd rfl h

theorem getS_set_stargazers (r : Repo) (c : Int) (f : SubstField) :
    ({ r with stargazers_count := c } : Repo).getS f = r.getS f := by
  cases f <;> rfl

theorem getS_set_starred (r : Repo) (s : String) (f : SubstField) :
    ({ r with starred_at := s } : Repo).getS f = r.getS f := by
  cases f <;> rfl

theorem applySubst_snd_of_true (d : RepoData) :
    ∀ (fs : List SubstField) (r : Repo),
      (applySubst d fs (r, true)).2 = true := by
  intro fs
  induction fs with
  | nil => intro r; rfl
  | cons f fs ih =>
    intro r
    rw [applySubst, List.foldl_cons]
    by_cases h : r.getS f ≠ d.getS f
    · rw [substStep, if_pos h]; exact ih _
    · rw [substStep, if_neg h]; exact ih _

theorem applySubst_snd (d : RepoData) :
    ∀ (fs : List SubstField) (r : Repo) (b : Bool),
      (applySubst d fs (r, b)).2 =
        (b || fs.any (fun f => decide (r.getS f ≠ d.getS f))) := by
  intro fs
  induction fs with
  | nil => intro r b; simp [applySubst]
  | cons f fs ih =>
    intro r b
    rw [applySubst, List.foldl_cons]
    by_cases h : r.getS f ≠ d.getS f
    · rw [substStep, if_pos h]
      have := applySubst_snd_of_true d fs (r.syncField d f)
      rw [applySubst] at this
      rw [this, List.any_cons]
      simp [h]
    · rw [substStep, if_neg h]
      have := ih r b
      rw [applySubst] at this
      rw [this, List.any_cons]
      have hf : r.getS f = d.getS f := not_not.mp h
      simp [hf]

theorem applySubst_fst_proj {γ : Type} (proj : Repo → γ) (d : RepoData)
    (hsync : ∀ (r : Repo) (f : SubstField), proj (r.syncField d f) = proj r) :
    ∀ (fs : List SubstField) (r : Repo) (b : Bool),
      proj (applySubst d fs (r, b)).1 = proj r := by
  intro fs
  induction fs with
  | nil => intro r b; rfl
  | cons f fs ih =>
    intro r b
    rw [applySubst, List.foldl_cons]
    by_cases h : r.getS f ≠ d.getS f
    · rw [substStep, if_pos h]
      have := ih (r.syncField d f) true
      rw [applySubst] at this
      rw [this, hsync]
    · rw [substStep, if_neg h]
      exact ih r b

theorem applySubst_getS_stable (d : RepoData) (f : SubstField) :
    ∀ (fs : List SubstField) (r : Repo) (b : Bool),
      r.getS f = d.getS f → (applySubst d fs (r, b)).1.getS f = d.getS f := by
  intro fs
  induction fs with
  | nil => intro r b h; exact h
  | cons f' fs ih =>
    intro r b h
    rw [applySubst, List.foldl_cons]
    by_cases hd : r.getS f' ≠ d.getS f'
    · rw [substStep, if_pos hd]
      apply ih
      by_cases hf : f = f'
      · rw [hf, getS_syncField_self]
      · rw [getS_syncField_of_ne r d f f' hf]; exact h
    · rw [substStep, if_neg hd]
      exact ih r b h

theorem applySubst_getS_mem (d : RepoData) :
    ∀ (fs : List SubstField) (r : Repo) (b : Bool) (f : SubstField),
      f ∈ fs → (applySubst d fs (r, b)).1.getS f = d.getS f := by
  intro fs
  induction fs with
  | nil => intro r b f hf; exact absurd hf (List.not_mem_nil f)
  | cons f' fs ih =>
    intro r b f hf
    rw [applySubst, List.foldl_cons]
    rcases List.mem_cons.mp hf with rfl | hf
    · by_cases hd : r.getS f ≠ d.getS f
      · rw [substStep, if_pos hd]
        exact applySubst_getS_stable d f fs _ true (getS_syncField_self r d f)
      · rw [substStep, if_neg hd]
        exact applySubst_getS_stable d f fs r b (not_not.mp hd)
    · by_cases hd : r.getS f' ≠ d.getS f'
      · rw [substStep, if_pos hd]; exact ih _ true f hf
      · rw [substStep, if_neg hd]; exact ih r b f hf

theorem getS_updateCounts (d : RepoData) (r : Repo) (f : SubstField) :
    (updateCounts d r).getS f = r.getS f := by
  simp only [updateCounts]
  split_ifs <;> cases f <;> rfl

theorem updateCounts_id (d : RepoData) (r : Repo) :
    (updateCounts d r).id = r.id := by
  simp only [updateCounts]; split_ifs <;> rfl

theorem updateCounts_alias (d : RepoData) (r : Repo) :
    (updateCounts d r).alias = r.alias := by
  simp only [updateCounts]; split_ifs <;> rfl

theorem updateCounts_notes (d : RepoData) (r : Repo) :
    (updateCounts d r).notes = r.notes := by
  simp only [updateCounts]; split_ifs <;> rfl

theorem updateCounts_tags (d : RepoData) (r : Repo) :
    (updateCounts d r).tags = r.tags := by
  simp only [updateCounts]; split_ifs <;> rfl

theorem updateCounts_owner_login (d : RepoData) (r : Repo) :
    (updateCounts d r).owner_login = r.owner_login := by
  simp only [updateCounts]; split_ifs <;> rfl

theorem updateCounts_owner_avatar_url (d : RepoData) (r : Repo) :
    (updateCounts d r).owner_avatar_url = r.owner_avatar_url := by
  simp only [updateCounts]; split_ifs <;> rfl

theorem updateRepo_snd (d : RepoData) (r : Repo) :
    ((updateRepo d r).2 = true) ↔ substDiffers d r := by
  have h2 : (updateRepo d r).2 = (applySubst d substantive_fields (r, false)).2 := by
    simp only [updateRepo]
  rw [h2, applySubst_snd d substantive_fields r false]
  simp [substDiffers, List.any_eq_true]

theorem updateRepo_fst (d : RepoData) (r : Repo) :
    (updateRepo d r).1 = updateCounts d (applySubst d substantive_fields (r, false)).1 := by
  simp only [updateRepo]

theorem updateRepo_getS (d : RepoData) (r : Repo) (f : SubstField)
    (hf : f ∈ substantive_fields) : (updateRepo d r).1.getS f = d.getS f := by
  rw [updateRepo_fst, getS_updateCounts]
  exact applySubst_getS_mem d substantive_fields r false f hf

theorem updateRepo_id (d : RepoData) (r : Repo) : (updateRepo d r).1.id = r.id := by
  rw [updateRepo_fst, updateCounts_id]
  exact applySubst_fst_proj (fun r => r.id) d
    (fun r f => by cases f <;> rfl) substantive_fields r false

theorem updateRepo_alias (d : RepoData) (r : Repo) :
    (updateRepo d r).1.alias = r.alias := by
  rw [updateRepo_fst, updateCounts_alias]
  exact applySubst_fst_proj (fun r => r.alias) d
    (fun r f => by cases f <;> rfl) substantive_fields r false

theorem updateRepo_notes (d : RepoData) (r : Repo) :
    (updateRepo d r).1.notes = r.notes := by
  rw [updateRepo_fst, updateCounts_notes]
  exact applySubst_fst_proj (fun r => r.notes) d
    (fun r f => by cases f <;> rfl) substantive_fields r false

theorem updateRepo_tags (d : RepoData) (r : Repo) :
    (updateRepo d r).1.tags = r.tags := by
  rw [updateRepo_fst, updateCounts_tags]
  exact applySubst_fst_proj (fun r => r.tags) d
    (fun r f => by cases f <;> rfl) substantive_fields r false

theorem updateRepo_owner_login (d : RepoData) (r : Repo) :
    (updateRepo d r).1.owner_login = r.owner_login := by
  rw [updateRepo_fst, updateCounts_owner_login]
  exact applySubst_fst_proj (fun r => r.owner_login) d
    (fun r f => by cases f <;> rfl) substantive_fields r false

theorem updateRepo_owner_avatar_url (d : RepoData) (r : Repo) :
    (updateRepo d r).1.owner_avatar_url = r.owner_avatar_url := by
  rw [updateRepo_fst, updateCounts_owner_avatar_url]
  exact applySubst_fst_proj (fun r => r.owner_avatar_url) d
    (fun r f => by cases f <;> rfl) substantive_fields r false

theorem getS_model_validate (d : RepoData) (f : SubstField) :
    (Repo.model_validate d).getS f = d.getS f := by
  cases f <;> rfl

/-! ### Common-loop membership lemmas -/

theorem dictFind?_dictOf_sound {β : Type} (key : β → Int) (xs : List β)
    (k : Int) (v : β) (h : dictFind? (dictOf xs key) k = some v) :
    v ∈ xs ∧ key v = k :=
  mem_dictOf key xs (k, v) (dictFind?_mem _ _ _ h)

theorem mem_processCommon_fst (gm : List (Int × RepoData)) (dm : List (Int × Repo)) :
    ∀ (ids : List Int) (x : Repo),
      x ∈ (processCommon gm dm ids).1 ↔
        ∃ i ∈ ids, ∃ g r, dictFind? gm i = some g ∧ dictFind? dm i = some r ∧
          x = (updateRepo g r).1 := by
  intro ids
  induction ids with
  | nil => intro x; simp [processCommon]
  | cons i ids ih =>
    intro x
    cases hg : dictFind? gm i with
    | none =>
      simp only [processCommon, hg]
      rw [ih]
      constructor
      · rintro ⟨j, hj, g, r, hg', hd', rfl⟩
        exact ⟨j, List.mem_cons_of_mem i hj, g, r, hg', hd', rfl⟩
      · rintro ⟨j, hj, g, r, hg', hd', rfl⟩
        rcases List.mem_cons.mp hj with rfl | hj
        · exact absurd (hg ▸ hg') (by simp)
        · exact ⟨j, hj, g, r, hg', hd', rfl⟩
    | some g =>
      cases hd : dictFind? dm i with
      | none =>
        simp only [processCommon, hg, hd]
        rw [ih]
        constructor
        · rintro ⟨j, hj, g', r', hg', hd', rfl⟩
          exact ⟨j, List.mem_cons_of_mem i hj, g', r', hg', hd', rfl⟩
        · rintro ⟨j, hj, g', r', hg', hd', rfl⟩
          rcases List.mem_cons.mp hj with rfl | hj
          · exact absurd (hd ▸ hd') (by simp)
          · exact ⟨j, hj, g', r', hg', hd', rfl⟩
      | some r =>
        simp only [processCommon, hg, hd]
        rw [List.mem_cons, ih]
        constructor
        · rintro (rfl | ⟨j, hj, g', r', hg', hd', rfl⟩)
          · exact ⟨i, List.mem_cons_self i ids, g, r, hg, hd, rfl⟩
          · exact ⟨j, List.mem_cons_of_mem i hj, g', r', hg', hd', rfl⟩
        · rintro ⟨j, hj, g', r', hg', hd', rfl⟩
          rcases List.mem_cons.mp hj with rfl | hj
          · rw [hg] at hg'
            rw [hd] at hd'
            cases hg'
            cases hd'
            exact Or.inl rfl
          · exact Or.inr ⟨j, hj, g', r', hg', hd', rfl⟩

theorem mem_processCommon_snd (gm : List (Int × RepoData)) (dm : List (Int × Repo)) :
    ∀ (ids : List Int) (x : Repo),
      x ∈ (processCommon gm dm ids).2 ↔
        ∃ i ∈ ids, ∃ g r, dictFind? gm i = some g ∧ dictFind? dm i = some r ∧
          (updateRepo g r).2 = true ∧ x = (updateRepo g r).1 := by
  intro ids
  induction ids with
  | nil => intro x; simp [processCommon]
  | cons i ids ih =>
    intro x
    cases hg : dictFind? gm i with
    | none =>
      simp only [processCommon, hg]
      rw [ih]
      constructor
      · rintro ⟨j, hj, g, r, hg', hd', hu, rfl⟩
        exact ⟨j, List.mem_cons_of_mem i hj, g, r, hg', hd', hu, rfl⟩
      · rintro ⟨j, hj, g, r, hg', hd', hu, rfl⟩
        rcases List.mem_cons.mp hj with rfl | hj
        · exact absurd (hg ▸ hg') (by simp)
        · exact ⟨j, hj, g, r, hg', hd', hu, rfl⟩
    | some g =>
      cases hd : dictFind? dm i with
      | none =>
        simp only [processCommon, hg, hd]
        rw [ih]
        constructor
        · rintro ⟨j, hj, g', r', hg', hd', hu, rfl⟩
          exact ⟨j, List.mem_cons_of_mem i hj, g', r', hg', hd', hu, rfl⟩
        · rintro ⟨j, hj, g', r', hg', hd', hu, rfl⟩
          rcases List.mem_cons.mp hj with rfl | hj
          · exact absurd (hd ▸ hd') (by simp)
          · exact ⟨j, hj, g', r', hg', hd', hu, rfl⟩
      | some r =>
        simp only [processCommon, hg, hd]
        by_cases hu : (updateRepo g r).2 = true
        · rw [if_pos hu]
          rw [List.mem_cons, ih]
          constructor
          · rintro (rfl | ⟨j, hj, g', r', hg', hd', hu', rfl⟩)
            · exact ⟨i, List.mem_cons_self i ids, g, r, hg, hd, hu, rfl⟩
            · exact ⟨j, List.mem_cons_of_mem i hj, g', r', hg', hd', hu', rfl⟩
          · rintro ⟨j, hj, g', r', hg', hd', hu', rfl⟩
            rcases List.mem_cons.mp hj with rfl | hj
            · rw [hg] at hg'
              rw [hd] at hd'
              cases hg'
              cases hd'
              exact Or.inl rfl
            · exact Or.inr ⟨j, hj, g', r', hg', hd', hu', rfl⟩
        · rw [if_neg hu]
          rw [ih]
          constructor
          · rintro ⟨j, hj, g', r', hg', hd', hu', rfl⟩
            exact ⟨j, List.mem_cons_of_mem i hj, g', r', hg', hd', hu', rfl⟩
          · rintro ⟨j, hj, g', r', hg', hd', hu', rfl⟩
            rcases List.mem_cons.mp hj with rfl | hj
            · rw [hg] at hg'
              rw [hd] at hd'
              cases hg'
              cases hd'
              exact absurd hu' hu
            · exact ⟨j, hj, g', r', hg', hd', hu', rfl⟩

theorem diff_to_add_eq (R : List RepoData) (L : List Repo) :
    (_diff_and_prepare_operations R L).to_add =
      ((dictKeys (dictOf R (·.id))).filter
        (fun i => ¬ i ∈ dictKeys (dictOf L (·.id)))).filterMap
          (dictFind? (dictOf R (·.id))) := by
  simp only [_diff_and_prepare_operations]

theorem diff_to_update_eq (R : List RepoData) (L : List Repo) :
    (_diff_and_prepare_operations R L).to_update =
      (processCommon (dictOf R (·.id)) (dictOf L (·.id))
        ((dictKeys (dictOf R (·.id))).filter
          (fun i => i ∈ dictKeys (dictOf L (·.id))))).1 := by
  simp only [_diff_and_prepare_operations]

theorem diff_to_remove_eq (R : List RepoData) (L : List Repo) :
    (_diff_and_prepare_operations R L).to_remove_ids =
      (dictKeys (dictOf L (·.id))).filter
        (fun i => ¬ i ∈ dictKeys (dictOf R (·.id))) := by
  simp only [_diff_and_prepare_operations]

theorem diff_subst_eq (R : List RepoData) (L : List Repo) :
    (_diff_and_prepare_operations R L).substantive_updated_repos =
      (processCommon (dictOf R (·.id)) (dictOf L (·.id))
        ((dictKeys (dictOf R (·.id))).filter
          (fun i => i ∈ dictKeys (dictOf L (·.id))))).2 := by
  simp only [_diff_and_prepare_operations]

theorem applyDiff_eq (R : List RepoData) (L : List Repo) :
    applyDiff R L = (_diff_and_prepare_operations R L).to_update ++
      (_diff_and_prepare_operations R L).to_add.map Repo.model_validate := by
  simp only [applyDiff]

/-- The components of `_diff_and_prepare_operations`, written out. -/
theorem diff_components (R : List RepoData) (L : List Repo) :
    _diff_and_prepare_operations R L =
      { to_add := ((dictKeys (dictOf R (·.id))).filter
          (fun i => ¬ i ∈ dictKeys (dictOf L (·.id)))).filterMap
            (dictFind? (dictOf R (·.id))),
        to_update := (processCommon (dictOf R (·.id)) (dictOf L (·.id))
          ((dictKeys (dictOf R (·.id))).filter
            (fun i => i ∈ dictKeys (dictOf L (·.id))))).1,
        to_remove_ids := (dictKeys (dictOf L (·.id))).filter
          (fun i => ¬ i ∈ dictKeys (dictOf R (·.id))),
        substantive_updated_repos := (processCommon (dictOf R (·.id)) (dictOf L (·.id))
          ((dictKeys (dictOf R (·.id))).filter
            (fun i => i ∈ dictKeys (dictOf L (·.id))))).2 } := by
  simp only [_diff_and_prepare_operations]

/-- Membership in the id projection of a repo list. -/
theorem mem_map_repo_id (L : List Repo) (i : Int) :
    i ∈ L.map Repo.id ↔ ∃ r ∈ L, r.id = i := by
  simp [List.mem_map]

/-- Membership in the id projection of a remote record list. -/
theorem mem_map_repoData_id (R : List RepoData) (i : Int) :
    i ∈ R.map RepoData.id ↔ ∃ d ∈ R, d.id = i := by
  simp [List.mem_map]

/-- Key membership for the github map, in terms of the input list. -/
theorem mem_gkeys (R : List RepoData) (i : Int) :
    i ∈ dictKeys (dictOf R (·.id)) ↔ i ∈ R.map RepoData.id := by
  rw [mem_dictKeys_dictOf, mem_map_repoData_id]

/-- Key membership for the db map, in terms of the input list. -/
theorem mem_dkeys (L : List Repo) (i : Int) :
    i ∈ dictKeys (dictOf L (·.id)) ↔ i ∈ L.map Repo.id := by
  rw [mem_dictKeys_dictOf, mem_map_repo_id]

/-- C4: the `stats` dict returned by `run_full_sync` never contains the keys
`"old_pushed_at_map"` and `"updated_repo_ids"` that the scheduler reads
(scheduler.py lines 89 and 118), so the scheduler always falls back to the
empty map and the empty id list, even when items were substantively updated. -/
theorem c4_stats_lack_push_keys (R : List RepoData) (L : List Repo) :
    statsGet (run_full_sync_stats R L) "old_pushed_at_map" = none ∧
    statsGet (run_full_sync_stats R L) "updated_repo_ids" = none ∧
    scheduler_old_pushed_at_map (run_full_sync_stats R L) = .idMap [] ∧
    scheduler_updated_repo_ids (run_full_sync_stats R L) = .idList [] :=
  ⟨rfl, rfl, rfl, rfl⟩

/-- C5: `_is_in_dnd_hours` returns `false` when the flag is off or
`start == end`; for a same-day window (`start < end`) it is in-window iff
`start ≤ now < end`; for a midnight-wrapping window (`start > end`) it is
in-window iff `now ≥ start` or `now < end`. Times of day are in seconds
since midnight. -/
theorem c5_is_in_dnd_hours_spec (enabled : Bool) (sh eh now_s : Nat)
    (hsh : sh ≤ 23) (heh : eh ≤ 23) (hnow : now_s < 86400) :
    ((enabled = false ∨ sh = eh) → _is_in_dnd_hours enabled sh eh now_s = false) ∧
    (sh < eh → (_is_in_dnd_hours enabled sh eh now_s = true ↔
      enabled = true ∧ sh * 3600 ≤ now_s ∧ now_s < eh * 3600)) ∧
    (eh < sh → (_is_in_dnd_hours enabled sh eh now_s = true ↔
      enabled = true ∧ (now_s ≥ sh * 3600 ∨ now_s < eh * 3600))) := by
  unfold _is_in_dnd_hours
  refine ⟨?_, ?_, ?_⟩
  · rintro (h | h) <;> simp [h]
  · intro hlt
    cases enabled with
    | false => simp
    | true =>
      have hne : ¬ sh = eh := Nat.ne_of_lt hlt
      simp only [Bool.not_eq_true, reduceCtorEq, hne, or_self, if_false]
      have : sh * 3600 < eh * 3600 := by omega
      simp [this]
  · intro hlt
    cases enabled with
    | false => simp
    | true =>
      have hne : ¬ sh = eh := Ne.symm (Nat.ne_of_lt hlt)
      simp only [Bool.not_eq_true, reduceCtorEq, hne, or_self, if_false]
      have : ¬ sh * 3600 < eh * 3600 := by omega
      simp [this]

/-- C5 witness: the specification's examples. With `start = 23`, `end = 7`,
00:30 (1800 s) is inside and 12:00 (43200 s) is outside; with
`start = end = 8` the result is `false` at 12:00. -/
theorem c5_is_in_dnd_hours_spec_witness :
    (_is_in_dnd_hours true 23 7 1800 = true) ∧
    (_is_in_dnd_hours true 23 7 43200 = false) ∧
    (_is_in_dnd_hours true 8 8 43200 = false) := by
  refine ⟨?_, ?_, ?_⟩
  · exact ((c5_is_in_dnd_hours_spec true 23 7 1800 (by decide) (by decide)
      (by decide)).2.2 (by decide)).mpr (by decide)
  · have h := (c5_is_in_dnd_hours_spec true 23 7 43200 (by decide) (by decide)
      (by decide)).2.2 (by decide)
    simp only [iff_iff_implies_and_implies] at h
    by_contra hc
    have := h.1 (by revert hc; cases _is_in_dnd_hours true 23 7 43200 <;> simp)
    omega
  · exact (c5_is_in_dnd_hours_spec true 8 8 43200 (by decide) (by decide)
      (by decide)).1 (Or.inr rfl)

/-- C6: the scheduler's quiet-hours sleep computation is wrong for same-day
windows. With the window 09:00-18:00, at 12:00 the computed sleep is
108001 s (waking at 18:00 the NEXT day), while the window's end boundary —
the earliest future moment at which `_is_in_dnd_hours` becomes false — is
today's 18:00, 21600 s away; the claimed wake-up target is missed. -/
theorem c6_same_day_dnd_sleep_overshoot :
    computeSleepSeconds ⟨true, true, 9, 18, 2⟩ 43200 1 = 108001 ∧
    nextDndEnd 18 43200 = 64800 ∧
    (43200 : Int) + (computeSleepSeconds ⟨true, true, 9, 18, 2⟩ 43200 1 - 1) ≠
      nextDndEnd 18 43200 := by
  refine ⟨?_, by decide, ?_⟩ <;> decide

/-- C7: per-item AI outcome persistence follows the error taxonomy: a GitHub
fetch fault, an AI endpoint fault or a network timeout yield `False` with
`analysis_failed = true` and `analyzed_at = null` (retryable); an
empty/too-short AI response yields `False` with `analysis_failed = true` and a
non-null `analyzed_at` (terminal); none of these raises to the caller. -/
theorem c7_per_item_outcomes (repo : RepoAnalysis) (nowT : Nat)
    (readme : Except SummarizeError (Option String × Option String))
    (aiCall : String → Except SummarizeError (Option String)) :
    (readme = .error .gitHubApi →
      summarize_single_repo repo nowT readme aiCall =
        (.ret false, { repo with analysis_failed := true, analyzed_at := none })) ∧
    (∀ content sha, readme = .ok (some content, sha) →
      (aiCall (content.take 2000) = .error .apiEndpoint ∨
        aiCall (content.take 2000) = .error .networkTimeout) →
      summarize_single_repo repo nowT readme aiCall =
        (.ret false, { repo with analysis_failed := true, analyzed_at := none })) ∧
    (∀ content sha, readme = .ok (some content, sha) →
      aiCall (content.take 2000) = .error .emptyContent →
      summarize_single_repo repo nowT readme aiCall =
        (.ret false, { repo with analysis_failed := true, analyzed_at := some nowT })) := by
  refine ⟨?_, ?_, ?_⟩
  · intro h
    simp [summarize_single_repo, h, Bind.bind, Except.bind]
  · rintro content sha h (hc | hc) <;>
      simp [summarize_single_repo, h, hc, Bind.bind, Except.bind]
  · intro content sha h hc
    simp [summarize_single_repo, h, hc, Bind.bind, Except.bind]

/-- C7 witness: concrete instances of the GitHub-fault and empty-content
cases. -/
theorem c7_per_item_outcomes_witness :
    summarize_single_repo ⟨none, none, false, none⟩ 5 (.error .gitHubApi)
        (fun _ => .ok (some "x")) = (.ret false, ⟨none, none, true, none⟩) ∧
    summarize_single_repo ⟨none, none, false, none⟩ 5 (.ok (some "rd", some "sh"))
        (fun _ => .error .emptyContent) = (.ret false, ⟨none, some 5, true, none⟩) :=
  ⟨(c7_per_item_outcomes ⟨none, none, false, none⟩ 5 (.error .gitHubApi)
      (fun _ => .ok (some "x"))).1 rfl,
   (c7_per_item_outcomes ⟨none, none, false, none⟩ 5 (.ok (some "rd", some "sh"))
      (fun _ => .error .emptyContent)).2.2 "rd" (some "sh") rfl rfl⟩

/-- C8: with every attempt rate-limited, `handle_rate_limit_with_retry` makes
exactly 3 calls, sleeps 30 s then 60 s between them, and returns `None`
without any exception escaping. -/
theorem c8_rate_limit_exhausts_three_attempts
    (call : Nat → Except SummarizeError String)
    (h : ∀ k, call k = .error .rateLimit) :
    handle_rate_limit_with_retry call = (.ok none, 3, [30, 60]) := by
  simp [handle_rate_limit_with_retry, retry_delays, List.enumFrom, retryFrom, h]

/-- C8 witness: the perpetually rate-limited call function. -/
theorem c8_rate_limit_exhausts_three_attempts_witness :
    handle_rate_limit_with_retry (fun _ => .error .rateLimit) =
      (.ok none, 3, [30, 60]) :=
  c8_rate_limit_exhausts_three_attempts _ (fun _ => rfl)

/-- C9: every notification channel whose configuration lacks its required
field (webhook: `url`; gotify: `url` or `token`; bark: `key`; serverchan:
`sendkey`) returns `False` from `send`, for all titles, contents and HTTP
outcomes — in particular no exception reaches the caller. -/
theorem c9_missing_config_returns_false (cfg : List (String × String))
    (title content : String) (attempt : Except Unit Bool) :
    (configGet cfg "url" = none → webhook_send cfg title content attempt = false) ∧
    ((configGet cfg "url" = none ∨ configGet cfg "token" = none) →
      gotify_send cfg title content attempt = false) ∧
    (configGet cfg "key" = none → bark_send cfg title content attempt = false) ∧
    (configGet cfg "sendkey" = none →
      serverchan_send cfg title content attempt = false) := by
  refine ⟨?_, ?_, ?_, ?_⟩
  · intro h; simp [webhook_send, h, truthyS]
  · rintro (h | h) <;> simp [gotify_send, h, truthyS, rstripSlash]
  · intro h; simp [bark_send, h, truthyS]
  · intro h; simp [serverchan_send, h, truthyS]

/-- C1: for unique-id inputs, `to_add` carries exactly the remote-only ids,
`to_remove_ids` exactly the local-only ids, and an intersecting item is in
`substantive_updated_repos` iff one of the six substantive fields differs
between its remote and local versions. -/
theorem c1_diff_partition (R : List RepoData) (L : List Repo)
    (hR : (R.map RepoData.id).Nodup) (hL : (L.map Repo.id).Nodup) :
    (∀ i, (∃ d ∈ (_diff_and_prepare_operations R L).to_add, d.id = i) ↔
      (i ∈ R.map RepoData.id ∧ ¬ i ∈ L.map Repo.id)) ∧
    (∀ i, i ∈ (_diff_and_prepare_operations R L).to_remove_ids ↔
      (i ∈ L.map Repo.id ∧ ¬ i ∈ R.map RepoData.id)) ∧
    (∀ d r, d ∈ R → r ∈ L → d.id = r.id →
      ((∃ x ∈ (_diff_and_prepare_operations R L).substantive_updated_repos,
          x.id = d.id) ↔ substDiffers d r)) := by
  refine ⟨?_, ?_, ?_⟩
  · intro i
    rw [diff_to_add_eq]
    constructor
    · rintro ⟨d, hd, rfl⟩
      obtain ⟨j, hj, hfind⟩ := List.mem_filterMap.mp hd
      obtain ⟨hdR, hdid⟩ := dictFind?_dictOf_sound _ R j d hfind
      obtain ⟨hjg, hjd⟩ := List.mem_filter.mp hj
      rw [decide_eq_true_eq] at hjd
      rw [hdid]
      exact ⟨(mem_gkeys R j).mp hjg, fun hc => hjd ((mem_dkeys L j).mpr hc)⟩
    · rintro ⟨hiR, hiL⟩
      have hig : i ∈ dictKeys (dictOf R (·.id)) := (mem_gkeys R i).mpr hiR
      have hid : ¬ i ∈ dictKeys (dictOf L (·.id)) :=
        fun hc => hiL ((mem_dkeys L i).mp hc)
      have hfil : i ∈ (dictKeys (dictOf R (·.id))).filter
          (fun i => ¬ i ∈ dictKeys (dictOf L (·.id))) :=
        List.mem_filter.mpr ⟨hig, decide_eq_true hid⟩
      obtain ⟨d, hfind⟩ := Option.isSome_iff_exists.mp
        ((dictFind?_isSome _ i).mpr hig)
      refine ⟨d, List.mem_filterMap.mpr ⟨i, hfil, hfind⟩, ?_⟩
      exact (dictFind?_dictOf_sound _ R i d hfind).2
  · intro i
    rw [diff_to_remove_eq, List.mem_filter, decide_eq_true_eq,
      mem_gkeys, mem_dkeys]
  · intro d r hdR hrL hid
    have hgm : dictFind? (dictOf R (·.id)) d.id = some d :=
      (dictFind?_dictOf_nodup _ R hR d.id d).mpr ⟨hdR, rfl⟩
    have hdm : dictFind? (dictOf L (·.id)) d.id = some r :=
      (dictFind?_dictOf_nodup _ L hL d.id r).mpr ⟨hrL, hid.symm⟩
    rw [diff_subst_eq]
    constructor
    · rintro ⟨x, hx, hxid⟩
      obtain ⟨j, hj, g', r', hg', hd', hu', hx'⟩ :=
        (mem_processCommon_snd _ _ _ x).mp hx
      have hr'id : r'.id = j := (dictFind?_dictOf_sound _ L j r' hd').2
      have hjid : j = d.id := by
        rw [← hr'id, ← updateRepo_id g' r', ← hx']
        exact hxid
      subst hjid
      rw [hgm] at hg'
      rw [hdm] at hd'
      cases hg'
      cases hd'
      exact (updateRepo_snd d r).mp hu'
    · intro hdiff
      have hcomm : d.id ∈ (dictKeys (dictOf R (·.id))).filter
          (fun i => i ∈ dictKeys (dictOf L (·.id))) := by
        refine List.mem_filter.mpr ⟨?_, decide_eq_true ?_⟩
        · exact (mem_gkeys R d.id).mpr (List.mem_map_of_mem RepoData.id hdR)
        · exact (mem_dkeys L d.id).mpr (hid ▸ List.mem_map_of_mem Repo.id hrL)
      refine ⟨(updateRepo d r).1, ?_, ?_⟩
      · exact (mem_processCommon_snd _ _ _ _).mpr
          ⟨d.id, hcomm, d, r, hgm, hdm, (updateRepo_snd d r).mpr hdiff, rfl⟩
      · rw [updateRepo_id]
        exact hid.symm

/-- C1 witness: the specification's worked scenario, instantiated at id 4
(remote-only, so it must land in `to_add`). -/
theorem c1_diff_partition_witness :
    (∃ d ∈ (_diff_and_prepare_operations remoteScenario localScenario).to_add,
      d.id = 4) ↔
      ((4 : Int) ∈ remoteScenario.map RepoData.id ∧
        ¬ (4 : Int) ∈ localScenario.map Repo.id) :=
  (c1_diff_partition remoteScenario localScenario (by decide) (by decide)).1 4

/-- C2 counterexample: an intersecting item with no field difference at all
is still returned in `to_update` (the loop appends every common repo
unconditionally), so "only if at least one field actually differs" is false. -/
theorem c2_unchanged_item_still_in_to_update :
    (∃ x ∈ (_diff_and_prepare_operations [remoteUnchanged] [localUnchanged]).to_update,
      x.id = 1) ∧
    ¬ substDiffers remoteUnchanged localUnchanged ∧
    localUnchanged.stargazers_count = remoteUnchanged.stargazers_count ∧
    localUnchanged.starred_at = remoteUnchanged.starred_at ∧
    localUnchanged.id = remoteUnchanged.id := by
  decide

/-- C2 amended: an item appears in `to_update` iff its id is in both the
remote and the local list — every intersecting item is returned, whether or
not any field changed. -/
theorem c2_to_update_is_intersection (R : List RepoData) (L : List Repo)
    (i : Int) :
    (∃ x ∈ (_diff_and_prepare_operations R L).to_update, x.id = i) ↔
      (i ∈ R.map RepoData.id ∧ i ∈ L.map Repo.id) := by
  rw [diff_to_update_eq]
  constructor
  · rintro ⟨x, hx, rfl⟩
    obtain ⟨j, hj, g', r', hg', hd', hx'⟩ := (mem_processCommon_fst _ _ _ x).mp hx
    obtain ⟨hjg, hjd⟩ := List.mem_filter.mp hj
    rw [decide_eq_true_eq] at hjd
    have hr'id : r'.id = j := (dictFind?_dictOf_sound _ L j r' hd').2
    have hxid : x.id = j := by rw [hx', updateRepo_id, hr'id]
    rw [hxid]
    exact ⟨(mem_gkeys R j).mp hjg, (mem_dkeys L j).mp hjd⟩
  · rintro ⟨hiR, hiL⟩
    have hig : i ∈ dictKeys (dictOf R (·.id)) := (mem_gkeys R i).mpr hiR
    have hidk : i ∈ dictKeys (dictOf L (·.id)) := (mem_dkeys L i).mpr hiL
    obtain ⟨g, hg⟩ := Option.isSome_iff_exists.mp ((dictFind?_isSome _ i).mpr hig)
    obtain ⟨r, hr⟩ := Option.isSome_iff_exists.mp ((dictFind?_isSome _ i).mpr hidk)
    refine ⟨(updateRepo g r).1, ?_, ?_⟩
    · exact (mem_processCommon_fst _ _ _ _).mpr
        ⟨i, List.mem_filter.mpr ⟨hig, decide_eq_true hidk⟩, g, r, hg, hr, rfl⟩
    · rw [updateRepo_id]
      exact (dictFind?_dictOf_sound _ L i r hr).2

/-- C3: the diff is idempotent — applying the diff's instructions to the
local set and re-running the diff against the same remote list yields empty
`to_add`, empty `to_remove_ids` and empty `substantive_updated_repos`. -/
theorem c3_diff_idempotent (R : List RepoData) (L : List Repo) :
    (_diff_and_prepare_operations R (applyDiff R L)).to_add = [] ∧
    (_diff_and_prepare_operations R (applyDiff R L)).to_remove_ids = [] ∧
    (_diff_and_prepare_operations R (applyDiff R L)).substantive_updated_repos
      = [] := by
  have hF1 : ∀ x ∈ applyDiff R L, ∃ g,
      dictFind? (dictOf R (·.id)) x.id = some g ∧
      ∀ f ∈ substantive_fields, x.getS f = g.getS f := by
    intro x hx
    rw [applyDiff_eq, List.mem_append] at hx
    rcases hx with hx | hx
    · rw [diff_to_update_eq] at hx
      obtain ⟨j, _, g', r', hg', hd', hx'⟩ :=
        (mem_processCommon_fst _ _ _ x).mp hx
      have hr'id : r'.id = j := (dictFind?_dictOf_sound _ L j r' hd').2
      have hxid : x.id = j := by rw [hx', updateRepo_id, hr'id]
      refine ⟨g', hxid ▸ hg', ?_⟩
      intro f hf
      rw [hx']
      exact updateRepo_getS g' r' f hf
    · obtain ⟨d₀, hd₀, rfl⟩ := List.mem_map.mp hx
      rw [diff_to_add_eq] at hd₀
      obtain ⟨j, _, hfind⟩ := List.mem_filterMap.mp hd₀
      have hd₀id : d₀.id = j := (dictFind?_dictOf_sound _ R j d₀ hfind).2
      have hmvid : (Repo.model_validate d₀).id = d₀.id := rfl
      refine ⟨d₀, ?_, ?_⟩
      · rw [hmvid, hd₀id]; exact hfind
      · intro f _
        exact getS_model_validate d₀ f
  have hF2 : ∀ i ∈ dictKeys (dictOf R (·.id)), ∃ x ∈ applyDiff R L, x.id = i := by
    intro i hig
    by_cases hidk : i ∈ dictKeys (dictOf L (·.id))
    · obtain ⟨g, hg⟩ := Option.isSome_iff_exists.mp ((dictFind?_isSome _ i).mpr hig)
      obtain ⟨r, hr⟩ := Option.isSome_iff_exists.mp ((dictFind?_isSome _ i).mpr hidk)
      refine ⟨(updateRepo g r).1, ?_, ?_⟩
      · rw [applyDiff_eq, List.mem_append]
        left
        rw [diff_to_update_eq]
        exact (mem_processCommon_fst _ _ _ _).mpr
          ⟨i, List.mem_filter.mpr ⟨hig, decide_eq_true hidk⟩, g, r, hg, hr, rfl⟩
      · rw [updateRepo_id]
        exact (dictFind?_dictOf_sound _ L i r hr).2
    · obtain ⟨d₀, hfind⟩ := Option.isSome_iff_exists.mp ((dictFind?_isSome _ i).mpr hig)
      refine ⟨Repo.model_validate d₀, ?_, ?_⟩
      · rw [applyDiff_eq, List.mem_append]
        right
        refine List.mem_map.mpr ⟨d₀, ?_, rfl⟩
        rw [diff_to_add_eq]
        exact List.mem_filterMap.mpr
          ⟨i, List.mem_filter.mpr ⟨hig, decide_eq_true hidk⟩, hfind⟩
      · exact (dictFind?_dictOf_sound _ R i d₀ hfind).2
  have hkeys : ∀ i, i ∈ dictKeys (dictOf R (·.id)) →
      i ∈ dictKeys (dictOf (applyDiff R L) (·.id)) := by
    intro i hig
    obtain ⟨x, hxL, hxid⟩ := hF2 i hig
    exact (mem_dictKeys_dictOf _ _ i).mpr ⟨x, hxL, hxid⟩
  have hkeys' : ∀ i, i ∈ dictKeys (dictOf (applyDiff R L) (·.id)) →
      i ∈ dictKeys (dictOf R (·.id)) := by
    intro i hid
    obtain ⟨x, hxL, hxid⟩ := (mem_dictKeys_dictOf _ _ i).mp hid
    obtain ⟨g, hg, _⟩ := hF1 x hxL
    exact (dictFind?_isSome _ i).mp (by rw [← hxid, hg]; rfl)
  refine ⟨?_, ?_, ?_⟩
  · rw [diff_to_add_eq]
    have : (dictKeys (dictOf R (·.id))).filter
        (fun i => ¬ i ∈ dictKeys (dictOf (applyDiff R L) (·.id))) = [] := by
      rw [List.filter_eq_nil_iff]
      intro i hig
      simp only [decide_eq_true_eq, not_not]
      exact hkeys i hig
    rw [this]
    rfl
  · rw [diff_to_remove_eq, List.filter_eq_nil_iff]
    intro i hid
    simp only [decide_eq_true_eq, not_not]
    exact hkeys' i hid
  · rw [diff_subst_eq, List.eq_nil_iff_forall_not_mem]
    intro x hx
    obtain ⟨j, _, g, r', hg, hd', hu, hx'⟩ :=
      (mem_processCommon_snd _ _ _ x).mp hx
    obtain ⟨hr'L, hr'id⟩ := dictFind?_dictOf_sound _ (applyDiff R L) j r' hd'
    obtain ⟨g₀, hg₀, hfields⟩ := hF1 r' hr'L
    rw [hr'id, hg] at hg₀
    cases hg₀
    obtain ⟨f, hf, hne⟩ := (updateRepo_snd g r').mp hu
    exact hne (hfields f hf)

/-- C10: the diff's frame — every repo returned in `to_update` (and in
`substantive_updated_repos`) keeps the user-editable fields `alias`, `notes`,
`tags` and the untouched core fields `id`, `owner_login`, `owner_avatar_url`
of its local original (only the six substantive fields plus
`stargazers_count` and `starred_at` are written), and every record in
`to_add` is one of the remote input records, unmodified. -/
theorem c10_diff_frame (R : List RepoData) (L : List Repo) :
    (∀ x ∈ (_diff_and_prepare_operations R L).to_update, ∃ r ∈ L,
      r.id = x.id ∧ x.alias = r.alias ∧ x.notes = r.notes ∧ x.tags = r.tags ∧
      x.owner_login = r.owner_login ∧ x.owner_avatar_url = r.owner_avatar_url) ∧
    (∀ x ∈ (_diff_and_prepare_operations R L).substantive_updated_repos, ∃ r ∈ L,
      r.id = x.id ∧ x.alias = r.alias ∧ x.notes = r.notes ∧ x.tags = r.tags ∧
      x.owner_login = r.owner_login ∧ x.owner_avatar_url = r.owner_avatar_url) ∧
    (∀ d ∈ (_diff_and_prepare_operations R L).to_add, d ∈ R) := by
  refine ⟨?_, ?_, ?_⟩
  · intro x hx
    rw [diff_to_update_eq] at hx
    obtain ⟨j, _, g', r', hg', hd', hx'⟩ := (mem_processCommon_fst _ _ _ x).mp hx
    refine ⟨r', (dictFind?_dictOf_sound _ L j r' hd').1, ?_⟩
    rw [hx']
    exact ⟨(updateRepo_id g' r').symm, updateRepo_alias g' r',
      updateRepo_notes g' r', updateRepo_tags g' r',
      updateRepo_owner_login g' r', updateRepo_owner_avatar_url g' r'⟩
  · intro x hx
    rw [diff_subst_eq] at hx
    obtain ⟨j, _, g', r', hg', hd', _, hx'⟩ := (mem_processCommon_snd _ _ _ x).mp hx
    refine ⟨r', (dictFind?_dictOf_sound _ L j r' hd').1, ?_⟩
    rw [hx']
    exact ⟨(updateRepo_id g' r').symm, updateRepo_alias g' r',
      updateRepo_notes g' r', updateRepo_tags g' r',
      updateRepo_owner_login g' r', updateRepo_owner_avatar_url g' r'⟩
  · intro d hd
    rw [diff_to_add_eq] at hd
    obtain ⟨j, _, hfind⟩ := List.mem_filterMap.mp hd
    exact (dictFind?_dictOf_sound _ R j d hfind).1

/-- C10 witness: in the worked scenario, the record in `to_add` is the
remote input record with id 4, unmodified. -/
theorem c10_diff_frame_witness :
    (⟨4, "n4", "o/n4", "o", "av", "u4", none, some "Py", 1, "P4", "S4"⟩ :
      RepoData) ∈ remoteScenario :=
  (c10_diff_frame remoteScenario localScenario).2.2 _ (by decide)

/-- C9 witness: the empty configuration rejects on all four channels. -/
theorem c9_missing_config_returns_false_witness :
    webhook_send [] "t" "c" (.ok true) = false ∧
    gotify_send [] "t" "c" (.ok true) = false ∧
    bark_send [] "t" "c" (.ok true) = false ∧
    serverchan_send [] "t" "c" (.ok true) = false :=
  ⟨(c9_missing_config_returns_false [] "t" "c" (.ok true)).1 rfl,
   (c9_missing_config_returns_false [] "t" "c" (.ok true)).2.1 (Or.inl rfl),
   (c9_missing_config_returns_false [] "t" "c" (.ok true)).2.2.1 rfl,
   (c9_missing_config_returns_false [] "t" "c" (.ok true)).2.2.2 rfl⟩

end StarGazer
